import Mathlib

/-!
Verification of the orchestration core of `ultralytics_gdrive_ops`.

The development shallowly embeds the three source files:

* `src/train.py` — the checkpoint-retention callback
  `save_top10_models_callback` (a bounded top-10 set kept in a Python
  `heapq` min-heap of `(fitness, epoch, path)` tuples, plus the path set
  `_top10_ckpt_paths` and the artifacts written by `torch.save` /
  removed by `os.remove`), and `Trainer.prepare_dataset`.
* `src/gdrive_ops.py` — `check_for_new_files` (listing diff) and
  `download_file`.
* `src/main.py` — `TrainManager`: the main polling loop of `start`,
  `_check_and_update_datasets`, `_process_next_dataset`,
  `_trigger_training_process`, and the background
  `_sync_model_logs_loop` daemon.

External collaborators (the `rclone` primitives, `torch.save`,
`os.remove`, `unzip_file`, `check_dataset_structure`, the child
training process) are injected as explicit outcome parameters, exactly
at the interface boundary the code uses them.  Fallible calls are
`Except`-valued; Python floats used as fitness scores are modelled as
`Int` (only their linear order is ever used by the code).
-/

/-! ## Checkpoint retention (`src/train.py`, `save_top10_models_callback`) -/

/-- A candidate checkpoint as seen by the callback: the fitness score
`trainer.metrics["metrics/mAP50-95(B)"]` and the epoch `trainer.epoch`.
Only the linear order of scores matters to the code, so the float is
modelled as an integer. -/
structure Ckpt where
  score : Int
  epoch : Nat
deriving DecidableEq, Repr

/-- The checkpoint file name `top10_epoch{epoch}_map5095_{score:.6f}.pt`
is determined by the epoch and the score, so a path is modelled as the
pair `(epoch, score)`. -/
def pathOf (c : Ckpt) : Nat × Int :=
  (c.epoch, c.score)

/-- Strict order of Python tuples `(fitness, epoch, path)` as compared by
`heapq`.  The path is a function of the first two components
(`pathOf`), so the third comparison key never decides. -/
def ckptLt (a b : Ckpt) : Prop :=
  a.score < b.score ∨ (a.score = b.score ∧ a.epoch < b.epoch)

instance : DecidableRel ckptLt := fun a b =>
  inferInstanceAs (Decidable (a.score < b.score ∨ (a.score = b.score ∧ a.epoch < b.epoch)))

/-- Reflexive tuple order used to state that the popped element is the
heap minimum. -/
def ckptLe (a b : Ckpt) : Prop :=
  a.score < b.score ∨ (a.score = b.score ∧ a.epoch ≤ b.epoch)

/-- The minimum of the heap `trainer._top10_models`, i.e. `top10[0]`:
`heapq` keeps the tuple-least element at index 0 and `heappop` removes
exactly that element. -/
def heapMin : List Ckpt → Option Ckpt
  | [] => none
  | c :: rest => some (rest.foldl (fun m e => if ckptLt e m then e else m) c)

/-- The mutable state touched by the callback: the heap
`trainer._top10_models` (as its multiset of entries), the path set
`trainer._top10_ckpt_paths`, and the artifacts present on disk. -/
structure RState where
  top10 : List Ckpt
  ckptPaths : List (Nat × Int)
  disk : List (Nat × Int)
deriving DecidableEq, Repr

/-- Observable I/O of one callback invocation: the artifact path whose
deletion was attempted by `os.remove`, and the artifact path written by
`torch.save`. -/
structure RetEvent where
  deleted : Option (Nat × Int)
  saved : Option (Nat × Int)
deriving DecidableEq, Repr

/-- State at the first call: the heap and path set are initialized
empty; no retention artifact is on disk. -/
def initRState : RState :=
  { top10 := [], ckptPaths := [], disk := [] }

/-- One invocation of `save_top10_models_callback` on candidate `c`.
`delOk` tells whether the `os.remove` call inside the eviction branch
succeeds; on failure the exception is swallowed (`except Exception:
pass`) and the bookkeeping lines run regardless.  Mirrors lines
116-137 of `src/train.py`:

* fewer than 10 entries: `heappush`, add the path, `torch.save`;
* otherwise, only if `map_score > top10[0][0]`: `heappop` the worst,
  attempt `os.remove(worst_path)` when the path set holds it, remove it
  from the path set, then `heappush`, add the path, `torch.save`;
* otherwise the candidate is discarded with no effect. -/
def save_top10_step (delOk : Bool) (s : RState) (c : Ckpt) : RState × RetEvent :=
  if s.top10.length < 10 then
    ({ top10 := c :: s.top10,
       ckptPaths := s.ckptPaths.insert (pathOf c),
       disk := s.disk.insert (pathOf c) },
     { deleted := none, saved := some (pathOf c) })
  else
    match heapMin s.top10 with
    | none => (s, { deleted := none, saved := none })
    | some m =>
      if m.score < c.score then
        let heap1 := s.top10.erase m
        let attemptDel : Bool := decide (pathOf m ∈ s.ckptPaths)
        let disk1 := if attemptDel ∧ delOk then s.disk.filter (fun p => p ≠ pathOf m) else s.disk
        let paths1 := if attemptDel then s.ckptPaths.filter (fun p => p ≠ pathOf m) else s.ckptPaths
        ({ top10 := c :: heap1,
           ckptPaths := paths1.insert (pathOf c),
           disk := disk1.insert (pathOf c) },
         { deleted := if attemptDel then some (pathOf m) else none,
           saved := some (pathOf c) })
      else
        (s, { deleted := none, saved := none })

/-- A whole run of the callback over a sequence of candidates, starting
from state `s`.  `d n` tells whether the `os.remove` of the `n`-th
remaining step succeeds. -/
def save_top10_run (d : Nat → Bool) (s : RState) : List Ckpt → RState
  | [] => s
  | c :: rest => save_top10_run (fun n => d (n + 1)) (save_top10_step (d 0) s c).1 rest

/-- The log records emitted by one invocation of
`save_top10_models_callback`: the callback body (train.py lines 88-137)
contains no `logger` call on any path — in particular the
`except Exception: pass` handler at lines 129-130 swallows an
`os.remove` failure without emitting any log record.  The module-level
`logger` of train.py exists but is never invoked from the callback, so
the emitted record list is empty for every state, candidate and delete
outcome. -/
def save_top10_step_logs (_delOk : Bool) (_s : RState) (_c : Ckpt) : List String :=
  []

/-! Specification-side ordering: the descending order on scores used to
say which candidates are the K highest-scored ones. -/

/-- Descending order on integer scores. -/
def rge (a b : Int) : Prop := b ≤ a

instance : DecidableRel rge := fun a b => inferInstanceAs (Decidable (b ≤ a))

instance : IsTrans Int rge := ⟨fun _ _ _ h1 h2 => le_trans h2 h1⟩

instance : IsTotal Int rge := ⟨fun a b => (le_total b a).imp id id⟩

instance : IsAntisymm Int rge := ⟨fun _ _ h1 h2 => le_antisymm h2 h1⟩

/-- All scores sorted in descending order. -/
def sortedScoresDesc (l : List Int) : List Int := l.insertionSort rge

/-- The `k` highest scores of `l` (with multiplicity). -/
def topKScores (k : Nat) (l : List Int) : List Int := (sortedScoresDesc l).take k

/-! ## Listing diff (`src/gdrive_ops.py`, `check_for_new_files`) -/

/-- One iteration of the `for file in all_gdrive_files` loop: the state
is the pair (accumulated `new_files`, `current_files`); the loop only
reads `current_files` and appends to `new_files` those names not in
it. -/
def cfn_step (st : List String × List String) (f : String) : List String × List String :=
  if f ∈ st.2 then st else (st.1 ++ [f], st.2)

/-- `check_for_new_files(path, current_files)`, with the fetched
listing (`rclone.ls` / `os.listdir` names) passed in as `all_files`.
Returns the pair (`new_files` result, `current_files` after the call),
threading the caller state explicitly. -/
def check_for_new_files (all_files current_files : List String) :
    List String × List String :=
  all_files.foldl cfn_step ([], current_files)

/-- `os.path.basename`: the characters after the last slash. -/
def basename (s : String) : String :=
  ⟨s.data.foldl (fun acc ch => if ch = '/' then [] else acc ++ [ch]) []⟩

/-- Python `str.endswith`, on the character list of the string. -/
def strEndsWith (s t : String) : Bool :=
  t.data.isSuffixOf s.data

/-- Python slicing `s[:-n]`: the string without its last `n`
characters. -/
def strDropRight (s : String) (n : Nat) : String :=
  ⟨s.data.take (s.data.length - n)⟩

/-- `os.path.join(a, b)` for a relative second component. -/
def pathJoin (a b : String) : String := a ++ "/" ++ b

/-- `download_file(gdrive_path, local_path)`: runs `rclone.copy`
(injected outcome `copy`) and returns
`os.path.join(local_path, os.path.basename(gdrive_path))`.
A copy failure propagates to the caller (no handler in this
function). -/
def download_file (copy : Except String Unit) (gdrive_path local_path : String) :
    Except String String :=
  match copy with
  | .error e => .error e
  | .ok _ => .ok (pathJoin local_path (basename gdrive_path))

/-! ## Dataset preparation (`src/train.py`, `Trainer.prepare_dataset`) -/

/-- First component of `os.path.splitext` (stdlib collaborator), for the
inputs this code feeds it: paths ending in `".zip"` lose the four
suffix characters, except the Python corner case where the basename
before the dot consists only of dots (then the name is kept whole). -/
def splitext_fst (s : String) : String :=
  let b := basename s
  if strEndsWith b ".zip" ∧ (strDropRight b 4).data.all (fun ch => ch = '.') then s
  else strDropRight s 4

/-- `Trainer.prepare_dataset`: returns `None` when the path does not end
in `".zip"`, otherwise unzips (external side effect), strips the
extension, and returns `None` when `check_dataset_structure` (external
collaborator, injected as `structureOk`) rejects the directory. -/
def prepare_dataset (structureOk : String → Bool) (dataset_path : String) :
    Option String :=
  if ¬ strEndsWith dataset_path ".zip" then none
  else
    let p := splitext_fst dataset_path
    if ¬ structureOk p then none
    else some p

/-! ## Process launcher (`src/main.py`, `_trigger_training_process`) -/

/-- The argument vector built for the child process. -/
def training_cmd (run_name data_path model_log_path : String) : List String :=
  ["python", "src/train.py",
   "--run_name", run_name,
   "--data_path", data_path,
   "--model_log_path", model_log_path]

/-- `_trigger_training_process`: the parent environment is a Python
dict, modelled as a partial map; the child environment is
`os.environ.copy()` with `WANDB_API_KEY` re-assigned from the parent
when present.  `runResult` injects the outcome of `subprocess.run`
(`.ok code` = the child exited with `code`; `.error` = a spawn or
runtime exception).  The function returns the pair (value returned to
the caller, child environment).  The body discards the
`CompletedProcess`, and the `except Exception` clause only logs, so the
returned value is `none` on every path. -/
def trigger_training_process (parent_env : String → Option String)
    (runResult : Except String Int) :
    Option Int × (String → Option String) :=
  let env := parent_env
  let env := if (parent_env "WANDB_API_KEY").isSome
    then fun k => if k = "WANDB_API_KEY" then parent_env "WANDB_API_KEY" else env k
    else env
  match runResult with
  | .ok _ => (none, env)
  | .error _ => (none, env)

/-! ## Orchestrator loop (`src/main.py`, `TrainManager.start`) -/

/-- The `TrainManager` state read and written by one poll cycle. -/
structure MState where
  current_gdrive_dataset_paths : List String
  training_queue : List String
deriving DecidableEq, Repr

/-- Collaborator outcomes for one iteration of the `while True` body:
the fresh `rclone.ls` listing of the Google Drive dataset folder (or
its failure), the per-file `rclone.copy` outcome, the
`check_dataset_structure` verdict, and the `subprocess.run` outcome. -/
structure PollEnv where
  listing : Except String (List String)
  copy : String → Except String Unit
  structureOk : String → Bool
  spawn : Except String Int

/-- `_check_and_update_datasets`: diffs the fresh listing against
`current_gdrive_dataset_paths`, then merges the new names into the
known set and appends them to the training queue.  A listing failure
propagates: there is no handler in this method. -/
def check_and_update_datasets (listing : Except String (List String)) (st : MState) :
    Except String MState :=
  match listing with
  | .error e => .error e
  | .ok all =>
    let new_files := (check_for_new_files all st.current_gdrive_dataset_paths).1
    .ok { current_gdrive_dataset_paths := st.current_gdrive_dataset_paths ++ new_files,
          training_queue := st.training_queue ++ new_files }

/-- `_process_next_dataset`: pops the queue head, downloads it, prepares
it, and triggers the training process.  `Trainer.prepare_dataset`
returning `None` makes the next line `os.path.basename(dataset_path)`
raise a `TypeError`, which propagates out of this method; a copy
failure propagates likewise.  `_trigger_training_process` swallows its
own errors, so a completed preparation always yields `.ok`. -/
def process_next_dataset (env : PollEnv) (local_dataset_path gdrive_dataset_path : String)
    (parent_env : String → Option String) (st : MState) : Except String MState :=
  match st.training_queue with
  | [] => .error "IndexError: pop from empty list"
  | new_dataset :: rest =>
    let st1 : MState := { st with training_queue := rest }
    match download_file (env.copy new_dataset)
        (pathJoin gdrive_dataset_path new_dataset) local_dataset_path with
    | .error e => .error e
    | .ok local_new_dataset_path =>
      match prepare_dataset env.structureOk local_new_dataset_path with
      | none => .error "TypeError: expected str, bytes or os.PathLike object, not NoneType"
      | some dataset_path =>
        let _ := trigger_training_process parent_env env.spawn
        let _ := training_cmd (basename dataset_path) dataset_path "model_logs"
        .ok st1

/-- Outcome of one iteration of the `while True` body in
`TrainManager.start`: either the loop proceeds to the next poll cycle
(possibly after the empty-queue sleep), or an exception escaped the
body and the `except` clause runs `_cleanup` (stopping the sync
daemon, hence `cleanup = true`) followed by `sys.exit` with the given
status. -/
inductive StepResult where
  | nextPoll (st : MState)
  | shutdown (cleanup : Bool) (exitCode : Nat)
deriving DecidableEq, Repr

/-- Whether the loop proceeds to another poll cycle. -/
def StepResult.isNextPoll : StepResult → Bool
  | .nextPoll _ => true
  | .shutdown _ _ => false

/-- One iteration of the `try: while True:` body of `TrainManager.start`.
Any exception raised by `_check_and_update_datasets` (listing failure)
or `_process_next_dataset` (copy failure, `TypeError` on a failed
preparation) is caught only by the `except Exception` clause around the
whole loop, which logs, runs `_cleanup`, and calls `sys.exit(1)`.
An interrupt would take the `KeyboardInterrupt` clause
(`shutdown true 0`); interrupts are asynchronous and outside this
step function. -/
def startStep (env : PollEnv) (local_dataset_path gdrive_dataset_path : String)
    (parent_env : String → Option String) (st : MState) : StepResult :=
  match check_and_update_datasets env.listing st with
  | .error _ => .shutdown true 1
  | .ok st1 =>
    if st1.training_queue.isEmpty then .nextPoll st1
    else
      match process_next_dataset env local_dataset_path gdrive_dataset_path parent_env st1 with
      | .error _ => .shutdown true 1
      | .ok st2 => .nextPoll st2

/-! ## Sync daemon (`src/main.py`, `_sync_model_logs_loop`) -/

/-- Control point of the `sync_task` thread body:
`outer` = about to evaluate the `while not self.stop_sync_thread`
condition; `inner i` = inside the `for _ in range(1200)` wait loop with
`i` iterations remaining, about to check the stop flag; `done` = the
thread function returned. -/
inductive DPhase where
  | outer
  | inner (i : Nat)
  | done
deriving DecidableEq, Repr

/-- Observable action of one daemon step: a full `sync_folder` mirror
call (run to completion — never aborted once started), one
`time.sleep(1)` fine tick, or pure control transfer. -/
inductive DAct where
  | mirror
  | sleep
  | noop
deriving DecidableEq, Repr

/-- Small-step transition of `sync_task`.  `stop` is the value of
`self.stop_sync_thread` read at this step; `mirrorFails` tells whether
the `sync_folder` call (if one happens) raises — the surrounding
`try/except` only logs, so the transition does not depend on it.
From `outer`, a false flag runs one complete mirror call and enters the
1200-iteration wait loop; from `inner`, a true flag breaks out to the
`while` condition without sleeping, otherwise one `time.sleep(1)`
elapses. -/
def dstep (p : DPhase) (stop : Bool) (mirrorFails : Bool) : DPhase × DAct :=
  match p with
  | .outer => if stop then (.done, .noop) else (.inner 1200, .mirror)
  | .inner 0 => (.outer, .noop)
  | .inner (i + 1) => if stop then (.outer, .noop) else (.inner i, .sleep)
  | .done => (.done, .noop)

/-- Phase of the daemon after `n` steps from `p`, reading the flag
value `flags k` (and mirror outcome `fails k`) at step `k`. -/
def drun (flags fails : Nat → Bool) (p : DPhase) : Nat → DPhase
  | 0 => p
  | n + 1 => (dstep (drun flags fails p n) (flags n) (fails n)).1

/-- Action performed at step `n`. -/
def dact (flags fails : Nat → Bool) (p : DPhase) (n : Nat) : DAct :=
  (dstep (drun flags fails p n) (flags n) (fails n)).2

/-! ## Concrete poll environments used as witnesses and counterexamples -/

/-- Environment whose `rclone.ls` call raises. -/
def envListingError : PollEnv :=
  { listing := .error "rclone.ls: connection reset",
    copy := fun _ => .ok (),
    structureOk := fun _ => true,
    spawn := .ok 0 }

/-- Environment whose `rclone.copy` call raises for every file. -/
def envCopyError : PollEnv :=
  { listing := .ok ["data1.zip"],
    copy := fun _ => .error "rclone.copy: quota exceeded",
    structureOk := fun _ => true,
    spawn := .ok 0 }

/-- Environment whose dataset fails `check_dataset_structure`. -/
def envBadStructure : PollEnv :=
  { listing := .ok ["ds.zip"],
    copy := fun _ => .ok (),
    structureOk := fun _ => false,
    spawn := .ok 0 }

/-- Fresh manager state: nothing known, empty queue. -/
def mstate0 : MState :=
  { current_gdrive_dataset_paths := [], training_queue := [] }

/-- A concrete retention state holding ten checkpoints, two of which
share the minimal score 1 (epochs 1 and 3). -/
def rstateTen : RState :=
  { top10 := [⟨5, 0⟩, ⟨1, 3⟩, ⟨1, 1⟩, ⟨2, 2⟩, ⟨3, 4⟩, ⟨4, 5⟩, ⟨6, 6⟩, ⟨7, 7⟩, ⟨8, 8⟩, ⟨9, 9⟩],
    ckptPaths := [(0, 5), (3, 1), (1, 1), (2, 2), (4, 3), (5, 4), (6, 6), (7, 7), (8, 8), (9, 9)],
    disk := [(0, 5), (3, 1), (1, 1), (2, 2), (4, 3), (5, 4), (6, 6), (7, 7), (8, 8), (9, 9)] }

/-- Eleven candidates with the score sequence of concrete scenario A of
the spec, scaled by 100: the lowest score 10 is the one evicted. -/
def demo11 : List Ckpt :=
  [⟨10, 0⟩, ⟨20, 1⟩, ⟨30, 2⟩, ⟨40, 3⟩, ⟨50, 4⟩, ⟨60, 5⟩,
   ⟨70, 6⟩, ⟨80, 7⟩, ⟨90, 8⟩, ⟨95, 9⟩, ⟨30, 10⟩]

/-- Invariant tying a retention state to the already-processed score
list: the heap holds exactly the 10 highest scores seen so far (as a
multiset) and its size is the minimum of the candidate count and 10. -/
def TopInv (ps : List Int) (s : RState) : Prop :=
  (↑(s.top10.map Ckpt.score) : Multiset Int) = ↑(topKScores 10 ps)
  ∧ s.top10.length = min ps.length 10

/-- Structural invariant of a run: every heap entry is one of the
processed candidates (with multiplicity), and every heap entry has its
artifact path registered in the path set. -/
def RetInv (processed : List Ckpt) (s : RState) : Prop :=
  (↑s.top10 : Multiset Ckpt) ≤ ↑processed
  ∧ ∀ e ∈ s.top10, pathOf e ∈ s.ckptPaths

/-- Ten candidates with strictly increasing epochs, filling the heap. -/
def pre10 : List Ckpt :=
  [⟨10, 0⟩, ⟨20, 1⟩, ⟨30, 2⟩, ⟨40, 3⟩, ⟨50, 4⟩,
   ⟨60, 5⟩, ⟨70, 6⟩, ⟨80, 7⟩, ⟨90, 8⟩, ⟨95, 9⟩]

/-! ## Helper lemmas -/

theorem cfn_foldl (L : List String) : ∀ (acc S : List String),
    L.foldl cfn_step (acc, S) = (acc ++ L.filter (fun f => decide (f ∉ S)), S) := by
  induction L with
  | nil => intro acc S; simp
  | cons f rest ih =>
    intro acc S
    by_cases h : f ∈ S
    · simp [List.foldl_cons, cfn_step, h, ih]
    · simp [List.foldl_cons, cfn_step, h, ih]

/-! ## Claim theorems: listing diff, orchestrator error policy, daemon,
launcher, preparation failure -/

/-- C3: for every known set `S` and fetched listing `L` (a directory
listing, hence duplicate-free), `check_for_new_files` leaves `S`
unchanged and returns exactly the identifiers of `L` absent from `S`,
in listing order, with no duplicates and no entries already in `S`. -/
theorem check_for_new_files_diff :
    ∀ (L S : List String),
      (check_for_new_files L S).2 = S
      ∧ (check_for_new_files L S).1 = L.filter (fun f => decide (f ∉ S))
      ∧ (∀ x, x ∈ (check_for_new_files L S).1 ↔ (x ∈ L ∧ x ∉ S))
      ∧ (L.Nodup → (check_for_new_files L S).1.Nodup) := by
  intro L S
  have h := cfn_foldl L [] S
  unfold check_for_new_files
  rw [h]
  refine ⟨rfl, by simp, ?_, ?_⟩
  · intro x; simp [List.mem_filter]
  · intro hnd
    simpa using hnd.filter (fun f => decide (f ∉ S))

/-- Witness for C3 at a concrete listing and known set. -/
theorem check_for_new_files_diff_witness :
    (check_for_new_files ["a.zip", "b.zip", "c.zip"] ["b.zip"]).1.Nodup :=
  (check_for_new_files_diff ["a.zip", "b.zip", "c.zip"] ["b.zip"]).2.2.2 (by decide)

/-- C4 counterexample: with a failing listing collaborator, one
iteration of the main loop does not proceed to the next poll tick; the
outer handler runs the shutdown sequence and exits with status 1. -/
theorem poll_listing_failure_is_fatal :
    (startStep envListingError "datasets" "gdrive/datasets" (fun _ => none) mstate0).isNextPoll
      = false
    ∧ startStep envListingError "datasets" "gdrive/datasets" (fun _ => none) mstate0
      = .shutdown true 1 := by
  exact ⟨rfl, rfl⟩

/-- C4 amended: only the mirror collaborator (sync-daemon tick) and the
child-process invocation enjoy catch-and-continue at the call site
nearest their use; failures of the listing and copy collaborators
during a poll cycle propagate to the handler around the whole main
loop and are fatal (shutdown sequence, exit status 1). -/
theorem collaborator_failure_policy :
    (∀ env ldp gdp pe st e, env.listing = .error e →
        startStep env ldp gdp pe st = .shutdown true 1)
    ∧ (∀ env ldp gdp pe st st1 d rest e,
        check_and_update_datasets env.listing st = .ok st1 →
        st1.training_queue = d :: rest →
        env.copy d = .error e →
        startStep env ldp gdp pe st = .shutdown true 1)
    ∧ (∀ p stop f1 f2, dstep p stop f1 = dstep p stop f2)
    ∧ (∀ f, dstep .outer false f = (.inner 1200, .mirror))
    ∧ (∀ pe e, (trigger_training_process pe (.error e)).1 = none) := by
  refine ⟨?_, ?_, ?_, ?_, ?_⟩
  · intro env ldp gdp pe st e h
    simp [startStep, check_and_update_datasets, h]
  · intro env ldp gdp pe st st1 d rest e h1 h2 h3
    simp [startStep, h1, h2, process_next_dataset, download_file, h3]
  · intro p stop f1 f2; rfl
  · intro f; rfl
  · intro pe e; rfl

/-- Witness for C4 amended: a concrete listing failure and a concrete
copy failure are both fatal with exit status 1. -/
theorem collaborator_failure_policy_witness :
    startStep envListingError "local" "gd" (fun _ => none) mstate0 = .shutdown true 1
    ∧ startStep envCopyError "local" "gd" (fun _ => none) mstate0 = .shutdown true 1 :=
  ⟨collaborator_failure_policy.1 envListingError "local" "gd" (fun _ => none) mstate0
      "rclone.ls: connection reset" rfl,
   collaborator_failure_policy.2.1 envCopyError "local" "gd" (fun _ => none) mstate0
      ⟨["data1.zip"], ["data1.zip"]⟩ "data1.zip" [] "rclone.copy: quota exceeded"
      rfl rfl rfl⟩

theorem dstep_two_true (q : DPhase) (f1 f2 : Bool) :
    (dstep (dstep q true f1).1 true f2).1 = .done := by
  rcases q with _ | i | _
  · rfl
  · cases i <;> rfl
  · rfl

theorem dstep_act_true (q : DPhase) (f : Bool) : (dstep q true f).2 = .noop := by
  rcases q with _ | i | _
  · rfl
  · cases i <;> rfl
  · rfl

/-- C7: once the stop flag reads true at every check, the daemon
performs no further sleep tick and no further mirror call and its
control reaches `done` within two transitions — a bound independent of
the 1200-iteration coarse interval; and with the flag false the very
first step from the loop head is one complete mirror call (the model
runs a started mirror to completion: it is never aborted). -/
theorem syncdaemon_stop_bound :
    (∀ flags fails p n, (∀ k, n ≤ k → flags k = true) →
        drun flags fails p (n + 2) = .done
        ∧ (∀ k, n ≤ k → dact flags fails p k ≠ .sleep ∧ dact flags fails p k ≠ .mirror))
    ∧ (∀ f, dstep .outer false f = (.inner 1200, .mirror)) := by
  constructor
  · intro flags fails p n h
    constructor
    · show (dstep (drun flags fails p (n + 1)) (flags (n + 1)) (fails (n + 1))).1 = .done
      have h1 : drun flags fails p (n + 1)
          = (dstep (drun flags fails p n) (flags n) (fails n)).1 := rfl
      rw [h1, h n (Nat.le_refl n), h (n + 1) (Nat.le_succ n)]
      exact dstep_two_true _ _ _
    · intro k hk
      have : dact flags fails p k = .noop := by
        unfold dact
        rw [h k hk]
        exact dstep_act_true _ _
      rw [this]
      exact ⟨by simp, by simp⟩
  · intro f; rfl

/-- Witness for C7: from inside the wait loop with the flag held true,
the daemon is done after two transitions and never sleeps or mirrors
again. -/
theorem syncdaemon_stop_bound_witness :
    drun (fun _ => true) (fun _ => false) (DPhase.inner 3) (0 + 2) = DPhase.done
    ∧ (∀ k, 0 ≤ k → dact (fun _ => true) (fun _ => false) (DPhase.inner 3) k ≠ DAct.sleep
        ∧ dact (fun _ => true) (fun _ => false) (DPhase.inner 3) k ≠ DAct.mirror) :=
  syncdaemon_stop_bound.1 (fun _ => true) (fun _ => false) (DPhase.inner 3) 0 (fun _ _ => rfl)

/-- C8 counterexample: `_trigger_training_process` discards the
`CompletedProcess` of a successful `subprocess.run` and returns `None`,
not the child exit status. -/
theorem launcher_discards_exit_status :
    (trigger_training_process (fun _ => none) (.ok 0)).1 = none
    ∧ (trigger_training_process (fun _ => none) (.ok 0)).1 ≠ some 0 := by
  exact ⟨rfl, by decide⟩

/-- C8 amended: the launcher returns `None` to its caller on every path
(the exit status is discarded, and a spawn or runtime error is caught
and logged rather than propagated), and the child environment equals
the parent environment copy — in particular the credential variable is
present in the child exactly when present in the parent. -/
theorem launcher_behavior :
    ∀ (pe : String → Option String) (r : Except String Int),
      (trigger_training_process pe r).1 = none
      ∧ (trigger_training_process pe r).2 = pe
      ∧ (((trigger_training_process pe r).2 "WANDB_API_KEY").isSome
          ↔ (pe "WANDB_API_KEY").isSome) := by
  intro pe r
  have hfun : (fun k => if k = "WANDB_API_KEY" then pe "WANDB_API_KEY" else pe k) = pe := by
    funext k
    by_cases hk : k = "WANDB_API_KEY" <;> simp [hk]
  have h2 : (trigger_training_process pe r).2 = pe := by
    unfold trigger_training_process
    by_cases h : (pe "WANDB_API_KEY").isSome <;> cases r <;> simp [h, hfun]
  refine ⟨?_, h2, by rw [h2]⟩
  unfold trigger_training_process
  by_cases h : (pe "WANDB_API_KEY").isSome <;> cases r <;> simp [h]

/-- C10: a dequeued dataset whose path lacks the `".zip"` suffix or
whose extracted directory fails the structure check makes
`prepare_dataset` return `None` (it does not raise); the orchestrator
then feeds that `None` to `os.path.basename`, whose `TypeError`
escapes to the main-loop handler: shutdown sequence, exit status 1 —
the iteration does not proceed to the next poll cycle. -/
theorem prepare_none_fatal :
    (∀ ok p, ¬ strEndsWith p ".zip" → prepare_dataset ok p = none)
    ∧ (∀ ok p, ok (splitext_fst p) = false → prepare_dataset ok p = none)
    ∧ (∀ env ldp gdp pe st st1 d rest,
        check_and_update_datasets env.listing st = .ok st1 →
        st1.training_queue = d :: rest →
        env.copy d = .ok () →
        prepare_dataset env.structureOk (pathJoin ldp (basename (pathJoin gdp d))) = none →
        startStep env ldp gdp pe st = .shutdown true 1
        ∧ (startStep env ldp gdp pe st).isNextPoll = false) := by
  refine ⟨?_, ?_, ?_⟩
  · intro ok p h
    simp [prepare_dataset, h]
  · intro ok p h
    by_cases hz : strEndsWith p ".zip"
    · simp [prepare_dataset, hz, h]
    · simp [prepare_dataset, hz]
  · intro env ldp gdp pe st st1 d rest h1 h2 h3 h4
    have hs : startStep env ldp gdp pe st = .shutdown true 1 := by
      simp [startStep, h1, h2, process_next_dataset, download_file, h3, h4]
    exact ⟨hs, by rw [hs]; rfl⟩

/-- Witness for C10: a non-zip path is rejected with `None`, and a
dataset failing the structure check shuts the orchestrator down with
exit status 1. -/
theorem prepare_none_fatal_witness :
    prepare_dataset (fun _ => true) "dataset.tar" = none
    ∧ (startStep envBadStructure "local" "gd" (fun _ => none) mstate0 = .shutdown true 1
        ∧ (startStep envBadStructure "local" "gd" (fun _ => none) mstate0).isNextPoll = false) :=
  ⟨prepare_none_fatal.1 (fun _ => true) "dataset.tar" (by decide),
   prepare_none_fatal.2.2 envBadStructure "local" "gd" (fun _ => none) mstate0
      ⟨["ds.zip"], ["ds.zip"]⟩ "ds.zip" [] rfl rfl rfl (by decide)⟩

/-! ## Heap-minimum lemmas -/

theorem ckptLe_refl (a : Ckpt) : ckptLe a a :=
  Or.inr ⟨rfl, Nat.le_refl _⟩

theorem ckptLe_of_ckptLt {a b : Ckpt} (h : ckptLt a b) : ckptLe a b := by
  rcases h with h | ⟨h1, h2⟩
  · exact Or.inl h
  · exact Or.inr ⟨h1, Nat.le_of_lt h2⟩

theorem ckptLe_of_not_lt {a b : Ckpt} (h : ¬ ckptLt a b) : ckptLe b a := by
  unfold ckptLt at h
  push_neg at h
  rcases lt_trichotomy b.score a.score with hs | hs | hs
  · exact Or.inl hs
  · exact Or.inr ⟨hs, h.2 hs.symm⟩
  · exact absurd h.1 (not_le.mpr hs)

theorem ckptLe_trans {a b c : Ckpt} (h1 : ckptLe a b) (h2 : ckptLe b c) : ckptLe a c := by
  rcases h1 with h1 | ⟨e1, p1⟩ <;> rcases h2 with h2 | ⟨e2, p2⟩
  · exact Or.inl (lt_trans h1 h2)
  · exact Or.inl (e2 ▸ h1)
  · exact Or.inl (e1 ▸ h2)
  · exact Or.inr ⟨e1.trans e2, Nat.le_trans p1 p2⟩

theorem ckptLe_score {a b : Ckpt} (h : ckptLe a b) : a.score ≤ b.score := by
  rcases h with h | ⟨h1, _⟩
  · exact le_of_lt h
  · exact le_of_eq h1

theorem foldl_min_spec (rest : List Ckpt) : ∀ acc : Ckpt,
    ((rest.foldl (fun m e => if ckptLt e m then e else m) acc) = acc
      ∨ (rest.foldl (fun m e => if ckptLt e m then e else m) acc) ∈ rest)
    ∧ ckptLe (rest.foldl (fun m e => if ckptLt e m then e else m) acc) acc
    ∧ (∀ e ∈ rest, ckptLe (rest.foldl (fun m e => if ckptLt e m then e else m) acc) e) := by
  induction rest with
  | nil =>
    intro acc
    exact ⟨Or.inl rfl, ckptLe_refl acc, by intro e he; cases he⟩
  | cons a rest ih =>
    intro acc
    rw [List.foldl_cons]
    by_cases h : ckptLt a acc
    · rw [if_pos h]
      obtain ⟨hmem, hacc, hall⟩ := ih a
      refine ⟨?_, ckptLe_trans hacc (ckptLe_of_ckptLt h), ?_⟩
      · rcases hmem with hmem | hmem
        · exact Or.inr (by rw [hmem]; exact List.mem_cons_self a rest)
        · exact Or.inr (List.mem_cons_of_mem a hmem)
      · intro e he
        rcases List.mem_cons.mp he with he | he
        · rw [he]; exact hacc
        · exact hall e he
    · rw [if_neg h]
      obtain ⟨hmem, hacc, hall⟩ := ih acc
      refine ⟨?_, hacc, ?_⟩
      · rcases hmem with hmem | hmem
        · exact Or.inl hmem
        · exact Or.inr (List.mem_cons_of_mem a hmem)
      · intro e he
        rcases List.mem_cons.mp he with he | he
        · rw [he]; exact ckptLe_trans hacc (ckptLe_of_not_lt h)
        · exact hall e he

theorem heapMin_spec {l : List Ckpt} {m : Ckpt} (h : heapMin l = some m) :
    m ∈ l ∧ ∀ e ∈ l, ckptLe m e := by
  cases l with
  | nil => cases h
  | cons c rest =>
    have hm : m = rest.foldl (fun m e => if ckptLt e m then e else m) c := by
      have := h
      unfold heapMin at this
      exact (Option.some_injective _ this).symm
    obtain ⟨hmem, hacc, hall⟩ := foldl_min_spec rest c
    subst hm
    refine ⟨?_, ?_⟩
    · rcases hmem with hmem | hmem
      · rw [hmem]; exact List.mem_cons_self c rest
      · exact List.mem_cons_of_mem c hmem
    · intro e he
      rcases List.mem_cons.mp he with he | he
      · rw [he]; exact hacc
      · exact hall e he

theorem heapMin_eq_none {l : List Ckpt} : heapMin l = none ↔ l = [] := by
  cases l <;> simp [heapMin]

/-! ## Claim theorems: eviction order and delete-failure tolerance -/

/-- C9: when an eviction fires, the member removed is the heap minimum
under the lexicographic order on `(score, epoch, path)` tuples: it has
the minimal score, and among members sharing that minimal score it has
the smallest epoch. -/
theorem eviction_prefers_earliest_epoch :
    ∀ (b : Bool) (s : RState) (c m : Ckpt),
      s.top10.length = 10 →
      heapMin s.top10 = some m →
      m.score < c.score →
      (save_top10_step b s c).1.top10 = c :: s.top10.erase m
      ∧ m ∈ s.top10
      ∧ (∀ e ∈ s.top10, m.score < e.score ∨ (m.score = e.score ∧ m.epoch ≤ e.epoch)) := by
  intro b s c m hlen hmin hsc
  have hspec := heapMin_spec hmin
  refine ⟨?_, hspec.1, fun e he => hspec.2 e he⟩
  simp [save_top10_step, hlen, hmin, hsc]

/-- Witness for C9: in `rstateTen` the scores 1 are shared by the
checkpoints at epochs 3 and 1; the eviction removes the epoch-1 one. -/
theorem eviction_prefers_earliest_epoch_witness :
    (save_top10_step true rstateTen ⟨2, 10⟩).1.top10 = ⟨2, 10⟩ :: rstateTen.top10.erase ⟨1, 1⟩
    ∧ (⟨1, 1⟩ : Ckpt) ∈ rstateTen.top10
    ∧ (∀ e ∈ rstateTen.top10, (1 : Int) < e.score ∨ ((1 : Int) = e.score ∧ 1 ≤ e.epoch)) :=
  eviction_prefers_earliest_epoch true rstateTen ⟨2, 10⟩ ⟨1, 1⟩ (by decide) (by decide) (by decide)

/-- C5 counterexample: at the full state `rstateTen` the candidate of
score 3 fires an eviction whose `os.remove` fails (`delOk = false`): a
delete of the minimum's artifact was attempted, yet the invocation
emits no log record at all — the failure is not logged, contradicting
the claimed "logged and swallowed". -/
theorem delete_failure_not_logged :
    (save_top10_step false rstateTen ⟨3, 30⟩).2.deleted = some (pathOf ⟨1, 1⟩)
    ∧ save_top10_step_logs false rstateTen ⟨3, 30⟩ = []
    ∧ (save_top10_step_logs false rstateTen ⟨3, 30⟩).length = 0 := by
  refine ⟨by decide, rfl, rfl⟩

/-- C5 amended: when the `os.remove` of the evicted artifact fails, the
exception is swallowed silently — no log record is emitted (the handler
is `pass`) — it is never fatal, and the in-memory bookkeeping is
exactly the one of the successful case: the evicted member leaves the
heap and the path set, and the new candidate is still inserted,
registered, and its artifact persisted. -/
theorem delete_failure_swallowed_silently :
    ∀ (s : RState) (c m : Ckpt),
      s.top10.length = 10 →
      heapMin s.top10 = some m →
      m.score < c.score →
      save_top10_step_logs false s c = []
      ∧ (save_top10_step false s c).1.top10 = (save_top10_step true s c).1.top10
      ∧ (save_top10_step false s c).1.ckptPaths = (save_top10_step true s c).1.ckptPaths
      ∧ (save_top10_step false s c).1.top10 = c :: s.top10.erase m
      ∧ c ∈ (save_top10_step false s c).1.top10
      ∧ (save_top10_step false s c).2.saved = some (pathOf c)
      ∧ pathOf c ∈ (save_top10_step false s c).1.disk := by
  intro s c m hlen hmin hsc
  refine ⟨rfl, ?_⟩
  simp only [save_top10_step, hlen, lt_irrefl, if_neg (by omega : ¬ (10 : Nat) < 10), hmin,
    if_pos hsc]
  refine ⟨rfl, rfl, rfl, List.mem_cons_self _ _, rfl, ?_⟩
  simp [List.mem_insert_iff]

/-! ## Sorted-prefix lemmas for the top-K characterization -/

theorem sortedScoresDesc_append (l : List Int) (x : Int) :
    sortedScoresDesc (l ++ [x]) = List.orderedInsert rge x (sortedScoresDesc l) := by
  refine List.eq_of_perm_of_sorted ?_ (List.sorted_insertionSort rge _) ?_
  · exact ((List.perm_insertionSort rge (l ++ [x])).trans
      ((List.perm_append_singleton x l).trans
        ((List.perm_insertionSort rge l).symm.cons x))).trans
      (List.perm_orderedInsert rge x (sortedScoresDesc l)).symm
  · exact List.Sorted.orderedInsert x (sortedScoresDesc l) (List.sorted_insertionSort rge l)

theorem take_erase_min (l : List Int) (j : Nat) (mu : Int)
    (hs : List.Sorted rge l) (hlen : j < l.length)
    (hmu : mu ∈ l.take (j + 1)) (hmin : ∀ y ∈ l.take (j + 1), mu ≤ y) :
    (↑(l.take j) : Multiset Int) = (↑(l.take (j + 1)) : Multiset Int).erase mu := by
  have hv : l.take (j + 1) = l.take j ++ [l[j]] := by
    rw [List.take_succ, List.getElem?_eq_getElem hlen]
    rfl
  have hvmem : l[j] ∈ l.take (j + 1) := by
    rw [hv]; exact List.mem_append_right _ (List.mem_singleton_self _)
  have hsorted : (l.take (j + 1)).Pairwise rge := hs.sublist (List.take_sublist _ _)
  have hvle : ∀ y ∈ l.take j, l[j] ≤ y := by
    have h2 := hsorted
    rw [hv] at h2
    have h3 := (List.pairwise_append.mp h2).2.2
    intro y hy
    exact h3 y hy l[j] (List.mem_singleton_self _)
  have hmuv : mu = l[j] := by
    refine le_antisymm (hmin _ hvmem) ?_
    rcases List.mem_append.mp (hv ▸ hmu) with h | h
    · exact hvle mu h
    · rw [List.mem_singleton.mp h]
  rw [hv, hmuv]
  have hcoe : ((l.take j ++ [l[j]] : List Int) : Multiset Int) = l[j] ::ₘ ↑(l.take j) :=
    Multiset.coe_eq_coe.mpr (List.perm_append_singleton _ _)
  rw [hcoe, Multiset.erase_cons_head]

theorem orderedInsert_take_mset (x : Int) :
    ∀ (L : List Int), List.Sorted rge L → ∀ (k : Nat) (mu : Int), k ≤ L.length →
      mu ∈ L.take k → (∀ y ∈ L.take k, mu ≤ y) →
      ((x ≤ mu →
          (↑((List.orderedInsert rge x L).take k) : Multiset Int) = ↑(L.take k))
       ∧ (mu < x →
          (↑((List.orderedInsert rge x L).take k) : Multiset Int)
            = x ::ₘ (↑(L.take k) : Multiset Int).erase mu)) := by
  intro L
  induction L with
  | nil =>
    intro _ k mu _ hmu _
    simp at hmu
  | cons b t ih =>
    intro hs k mu hk hmu hmin
    obtain ⟨hbt, hst⟩ := List.sorted_cons.mp hs
    rcases k with _ | j
    · simp at hmu
    · have hjt : j ≤ t.length := by
        simp only [List.length_cons] at hk
        omega
      by_cases hxb : rge x b
      · have hbx : b ≤ x := hxb
        simp only [List.orderedInsert, if_pos hxb]
        constructor
        · intro hxmu
          have hmub : mu ≤ b := by
            refine hmin b ?_
            rw [List.take_succ_cons]; exact List.mem_cons_self _ _
          have hxbeq : x = b := le_antisymm (le_trans hxmu hmub) hbx
          have hmueq : mu = b := le_antisymm hmub (le_trans hbx hxmu)
          have hLs : ((x :: b :: t).take (j + 1)) = x :: (b :: t).take j :=
            List.take_succ_cons
          have hRs : ((b :: t).take (j + 1)) = b :: t.take j := List.take_succ_cons
          rw [hLs, hRs]
          have hsub : (b :: t).take j ⊆ (b :: t).take (j + 1) := by
            intro z hz
            have hjj : (b :: t).take j = ((b :: t).take (j + 1)).take j := by
              rw [List.take_take]; congr 1; omega
            rw [hjj] at hz
            exact List.take_subset _ _ hz
          have hall1 : ∀ y ∈ (b :: t).take j, y = b := by
            intro y hy
            have hyb : y ≤ b := by
              rcases List.mem_cons.mp (List.mem_of_mem_take hy) with h | h
              · rw [h]
              · exact hbt y h
            have hby : mu ≤ y := hmin y (hsub hy)
            omega
          have hall2 : ∀ y ∈ t.take j, y = b := by
            intro y hy
            have hyb : y ≤ b := hbt y (List.mem_of_mem_take hy)
            have hby : mu ≤ y := by
              refine hmin y ?_
              rw [hRs]
              exact List.mem_cons_of_mem b hy
            omega
          have hlen1 : ((b :: t).take j).length = j := by
            rw [List.length_take]; simp only [List.length_cons]; omega
          have hlen2 : (t.take j).length = j := by
            rw [List.length_take]; omega
          have e1 : (b :: t).take j = List.replicate j b :=
            List.eq_replicate_iff.mpr ⟨hlen1, hall1⟩
          have e2 : t.take j = List.replicate j b :=
            List.eq_replicate_iff.mpr ⟨hlen2, hall2⟩
          rw [e1, e2, hxbeq]
        · intro hmux
          have hte : (↑((b :: t).take j) : Multiset Int)
              = (↑((b :: t).take (j + 1)) : Multiset Int).erase mu := by
            refine take_erase_min (b :: t) j mu hs ?_ hmu hmin
            simp only [List.length_cons]; omega
          have hLs : ((x :: b :: t).take (j + 1)) = x :: (b :: t).take j :=
            List.take_succ_cons
          rw [hLs]
          have hcc : (↑(x :: (b :: t).take j) : Multiset Int)
              = x ::ₘ ↑((b :: t).take j) := (Multiset.cons_coe _ _).symm
          rw [hcc, hte]
      · have hxb2 : x < b := by
          have hxb3 : ¬ b ≤ x := hxb
          exact not_le.mp hxb3
        simp only [List.orderedInsert, if_neg hxb]
        have hR : (b :: t).take (j + 1) = b :: t.take j := List.take_succ_cons
        have hL : (b :: List.orderedInsert rge x t).take (j + 1)
            = b :: (List.orderedInsert rge x t).take j := List.take_succ_cons
        constructor
        · intro hxmu
          rw [hL, hR]
          rcases j with _ | j2
          · simp
          · have hmumem : mu ∈ t.take (j2 + 1) := by
              have hmu2 : mu ∈ b :: t.take (j2 + 1) := by rw [← hR]; exact hmu
              rcases List.mem_cons.mp hmu2 with h | h
              · have hne : t.take (j2 + 1) ≠ [] := by
                  have hl : (t.take (j2 + 1)).length = j2 + 1 := by
                    rw [List.length_take]; omega
                  intro hnil; rw [hnil] at hl; simp at hl
                obtain ⟨y, hy⟩ := List.exists_mem_of_ne_nil _ hne
                have hyb : y ≤ b := hbt y (List.mem_of_mem_take hy)
                have hby : mu ≤ y := by
                  refine hmin y ?_
                  rw [hR]; exact List.mem_cons_of_mem b hy
                have hymu : y = mu := by omega
                rw [← hymu]; exact hy
              · exact h
            have hmint : ∀ y ∈ t.take (j2 + 1), mu ≤ y := by
              intro y hy
              refine hmin y ?_
              rw [hR]; exact List.mem_cons_of_mem b hy
            have hih := (ih hst (j2 + 1) mu hjt hmumem hmint).1 hxmu
            rw [← Multiset.cons_coe, ← Multiset.cons_coe, hih]
        · intro hmux
          have hmub : mu ≠ b := by
            intro h; rw [h] at hmux; omega
          rw [hL, hR]
          have hmumem : mu ∈ t.take j := by
            have hmu2 : mu ∈ b :: t.take j := by rw [← hR]; exact hmu
            rcases List.mem_cons.mp hmu2 with h | h
            · exact absurd h hmub
            · exact h
          have hmint : ∀ y ∈ t.take j, mu ≤ y := by
            intro y hy
            refine hmin y ?_
            rw [hR]; exact List.mem_cons_of_mem b hy
          have hih := (ih hst j mu hjt hmumem hmint).2 hmux
          rw [← Multiset.cons_coe, ← Multiset.cons_coe, hih,
            Multiset.erase_cons_tail _ (Ne.symm hmub)]
          exact Multiset.cons_swap b x _

/-! ## The retention invariant and the top-K theorems -/

theorem topKScores_append (ps : List Int) (x : Int) :
    topKScores 10 (ps ++ [x]) = (List.orderedInsert rge x (sortedScoresDesc ps)).take 10 := by
  unfold topKScores
  rw [sortedScoresDesc_append]

theorem topInv_init : TopInv [] initRState := by
  constructor
  · rfl
  · rfl

theorem TopInv_step (b : Bool) (ps : List Int) (s : RState) (c : Ckpt)
    (h : TopInv ps s) : TopInv (ps ++ [c.score]) (save_top10_step b s c).1 := by
  obtain ⟨hms, hlen⟩ := h
  have hlenS : (sortedScoresDesc ps).length = ps.length := List.length_insertionSort rge ps
  have hsorted : List.Sorted rge (sortedScoresDesc ps) := List.sorted_insertionSort rge ps
  by_cases hlt : s.top10.length < 10
  · have hps : ps.length < 10 := by omega
    have hstep : (save_top10_step b s c).1.top10 = c :: s.top10 := by
      simp [save_top10_step, hlt]
    constructor
    · rw [hstep, List.map_cons]
      have htk : topKScores 10 ps = sortedScoresDesc ps :=
        List.take_of_length_le (by omega)
      have hoilen : (List.orderedInsert rge c.score (sortedScoresDesc ps)).length
          = ps.length + 1 := by
        rw [List.orderedInsert_length]; omega
      rw [topKScores_append, List.take_of_length_le (by omega)]
      calc (↑(c.score :: s.top10.map Ckpt.score) : Multiset Int)
          = c.score ::ₘ ↑(s.top10.map Ckpt.score) := (Multiset.cons_coe _ _).symm
        _ = c.score ::ₘ ↑(topKScores 10 ps) := by rw [hms]
        _ = c.score ::ₘ ↑(sortedScoresDesc ps) := by rw [htk]
        _ = ↑(c.score :: sortedScoresDesc ps) := Multiset.cons_coe _ _
        _ = ↑(List.orderedInsert rge c.score (sortedScoresDesc ps)) :=
            Multiset.coe_eq_coe.mpr (List.perm_orderedInsert rge c.score _).symm
    · rw [hstep]
      simp only [List.length_cons, List.length_append, List.length_singleton, List.length_nil]
      omega
  · have hlen10 : s.top10.length = 10 := by omega
    have hps10 : 10 ≤ ps.length := by omega
    cases hm : heapMin s.top10 with
    | none =>
      exfalso
      have hnil := heapMin_eq_none.mp hm
      rw [hnil] at hlen10
      simp at hlen10
    | some m =>
      have hspec := heapMin_spec hm
      have hmumem : m.score ∈ (sortedScoresDesc ps).take 10 := by
        have h1 : m.score ∈ s.top10.map Ckpt.score :=
          List.mem_map_of_mem Ckpt.score hspec.1
        have h2 : m.score ∈ (↑(s.top10.map Ckpt.score) : Multiset Int) :=
          Multiset.mem_coe.mpr h1
        rw [hms] at h2
        exact Multiset.mem_coe.mp h2
      have hmumin : ∀ y ∈ (sortedScoresDesc ps).take 10, m.score ≤ y := by
        intro y hy
        have h2 : y ∈ (↑(s.top10.map Ckpt.score) : Multiset Int) := by
          rw [hms]; exact Multiset.mem_coe.mpr hy
        obtain ⟨e, he, hey⟩ := List.mem_map.mp (Multiset.mem_coe.mp h2)
        rw [← hey]
        exact ckptLe_score (hspec.2 e he)
      have hML := orderedInsert_take_mset c.score (sortedScoresDesc ps) hsorted 10 m.score
        (by omega) hmumem hmumin
      by_cases hsc : m.score < c.score
      · have hstep : (save_top10_step b s c).1.top10 = c :: s.top10.erase m := by
          simp [save_top10_step, hlt, hm, hsc]
        have hcons : (↑(s.top10.map Ckpt.score) : Multiset Int)
            = m.score ::ₘ ↑((s.top10.erase m).map Ckpt.score) := by
          have hp := (List.perm_cons_erase hspec.1).map Ckpt.score
          have := Multiset.coe_eq_coe.mpr hp
          simpa [Multiset.cons_coe] using this
        have hS : (↑((s.top10.erase m).map Ckpt.score) : Multiset Int)
            = (↑(s.top10.map Ckpt.score) : Multiset Int).erase m.score := by
          rw [hcons, Multiset.erase_cons_head]
        constructor
        · rw [hstep, List.map_cons, topKScores_append]
          calc (↑(c.score :: (s.top10.erase m).map Ckpt.score) : Multiset Int)
              = c.score ::ₘ ↑((s.top10.erase m).map Ckpt.score) := (Multiset.cons_coe _ _).symm
            _ = c.score ::ₘ (↑(s.top10.map Ckpt.score) : Multiset Int).erase m.score := by
                rw [hS]
            _ = c.score ::ₘ (↑(topKScores 10 ps) : Multiset Int).erase m.score := by rw [hms]
            _ = ↑((List.orderedInsert rge c.score (sortedScoresDesc ps)).take 10) :=
                (hML.2 hsc).symm
        · rw [hstep]
          simp only [List.length_cons, List.length_append, List.length_singleton,
            List.length_nil, List.length_erase_of_mem hspec.1]
          omega
      · have hstep : (save_top10_step b s c).1 = s := by
          simp [save_top10_step, hlt, hm, hsc]
        rw [hstep]
        constructor
        · rw [hms, topKScores_append]
          exact (hML.1 (le_of_not_lt hsc)).symm
        · simp only [List.length_append, List.length_singleton, List.length_cons,
            List.length_nil]
          omega

theorem TopInv_run : ∀ (cs : List Ckpt) (d : Nat → Bool) (ps : List Int) (s : RState),
    TopInv ps s → TopInv (ps ++ cs.map Ckpt.score) (save_top10_run d s cs) := by
  intro cs
  induction cs with
  | nil =>
    intro d ps s h
    simpa using h
  | cons c rest ih =>
    intro d ps s h
    have h1 := TopInv_step (d 0) ps s c h
    have h2 := ih (fun n => d (n + 1)) (ps ++ [c.score]) (save_top10_step (d 0) s c).1 h1
    simpa [save_top10_run, List.append_assoc] using h2

/-- C1: over any candidate sequence fed to the callback (and any
outcomes of the artifact deletions), the final heap holds exactly the
10 highest scores among all candidates, as a multiset of score values;
and a candidate whose score equals the current minimum is discarded
with no state change and no artifact persisted. -/
theorem retention_keeps_topK :
    (∀ (d : Nat → Bool) (cs : List Ckpt),
        (↑((save_top10_run d initRState cs).top10.map Ckpt.score) : Multiset Int)
          = ↑(topKScores 10 (cs.map Ckpt.score)))
    ∧ (∀ (b : Bool) (s : RState) (c m : Ckpt),
        s.top10.length = 10 → heapMin s.top10 = some m → c.score = m.score →
        save_top10_step b s c = (s, { deleted := none, saved := none })) := by
  constructor
  · intro d cs
    have h := (TopInv_run cs d [] initRState topInv_init).1
    simpa using h
  · intro b s c m hlen hm heq
    have hlt : ¬ s.top10.length < 10 := by omega
    simp [save_top10_step, hlt, hm, heq]

/-- Witness for C1: a candidate scoring exactly the current minimum of a
full heap is discarded: no state change, no artifact saved. -/
theorem retention_keeps_topK_witness :
    save_top10_step true rstateTen ⟨1, 20⟩ = (rstateTen, { deleted := none, saved := none }) :=
  retention_keeps_topK.2 true rstateTen ⟨1, 20⟩ ⟨1, 1⟩ (by decide) (by decide) (by decide)

/-- C2: after every invocation the retention set has at most 10
members, and once more than 10 candidates have been inserted its size
is exactly 10. -/
theorem retention_capacity :
    ∀ (d : Nat → Bool) (cs : List Ckpt),
      (save_top10_run d initRState cs).top10.length ≤ 10
      ∧ (10 < cs.length → (save_top10_run d initRState cs).top10.length = 10) := by
  intro d cs
  have h := (TopInv_run cs d [] initRState topInv_init).2
  simp only [List.nil_append, List.length_map] at h
  exact ⟨by omega, fun hN => by omega⟩

/-- Witness for C2: eleven candidates leave exactly ten retained. -/
theorem retention_capacity_witness :
    (save_top10_run (fun _ => true) initRState demo11).top10.length ≤ 10
    ∧ (save_top10_run (fun _ => true) initRState demo11).top10.length = 10 :=
  ⟨(retention_capacity (fun _ => true) demo11).1,
   (retention_capacity (fun _ => true) demo11).2 (by decide)⟩

/-! ## Structural invariant: heap entries come from the input and have
registered paths -/

theorem pathOf_ne_of_epoch_ne {a b1 : Ckpt} (h : a.epoch ≠ b1.epoch) :
    pathOf a ≠ pathOf b1 := by
  intro hp
  exact h (congrArg Prod.fst hp)

theorem retinv_facts {processed : List Ckpt} {s : RState} (h : RetInv processed s)
    (hndp : (processed.map Ckpt.epoch).Nodup) :
    (∀ e ∈ s.top10, e ∈ processed)
    ∧ s.top10.Nodup
    ∧ (∀ x ∈ s.top10, ∀ y ∈ s.top10, x.epoch = y.epoch → x = y) := by
  have hmem : ∀ e ∈ s.top10, e ∈ processed := by
    intro e he
    exact Multiset.mem_coe.mp (Multiset.mem_of_le h.1 (Multiset.mem_coe.mpr he))
  have hepochs : (s.top10.map Ckpt.epoch).Nodup := by
    have h1 : (↑(s.top10.map Ckpt.epoch) : Multiset Nat)
        ≤ ↑(processed.map Ckpt.epoch) := by
      have h2 := Multiset.map_le_map (f := Ckpt.epoch) h.1
      simpa using h2
    have h3 : (↑(processed.map Ckpt.epoch) : Multiset Nat).Nodup :=
      Multiset.coe_nodup.mpr hndp
    exact Multiset.coe_nodup.mp (Multiset.nodup_of_le h1 h3)
  exact ⟨hmem, List.Nodup.of_map Ckpt.epoch hepochs,
    fun x hx y hy => List.inj_on_of_nodup_map hepochs hx hy⟩

theorem RetInv_step (b : Bool) (processed : List Ckpt) (s : RState) (c : Ckpt)
    (h : RetInv processed s) (hnd : ((processed ++ [c]).map Ckpt.epoch).Nodup) :
    RetInv (processed ++ [c]) (save_top10_step b s c).1 := by
  have hndp : (processed.map Ckpt.epoch).Nodup := by
    rw [List.map_append] at hnd
    exact (List.nodup_append.mp hnd).1
  obtain ⟨hmem, htopNodup, hinj⟩ := retinv_facts h hndp
  have hple : (↑processed : Multiset Ckpt) ≤ ↑(processed ++ [c]) := by
    rw [← Multiset.coe_add processed [c]]
    exact le_add_right (le_refl _)
  have hconsle : c ::ₘ (↑processed : Multiset Ckpt) = ↑(processed ++ [c]) := by
    rw [Multiset.coe_eq_coe.mpr (List.perm_append_singleton c processed)]
    exact Multiset.cons_coe c processed
  by_cases hlt : s.top10.length < 10
  · have hstep : (save_top10_step b s c).1 =
        { top10 := c :: s.top10,
          ckptPaths := s.ckptPaths.insert (pathOf c),
          disk := s.disk.insert (pathOf c) } := by
      simp [save_top10_step, hlt]
    rw [hstep]
    constructor
    · show (↑(c :: s.top10) : Multiset Ckpt) ≤ ↑(processed ++ [c])
      rw [← Multiset.cons_coe c s.top10, ← hconsle]
      exact Multiset.cons_le_cons c h.1
    · intro e he
      rcases List.mem_cons.mp he with he | he
      · rw [he]; exact List.mem_insert_self _ _
      · exact List.mem_insert_iff.mpr (Or.inr (h.2 e he))
  · cases hm : heapMin s.top10 with
    | none =>
      have hstep : (save_top10_step b s c).1 = s := by
        simp [save_top10_step, hlt, hm]
      rw [hstep]
      exact ⟨le_trans h.1 hple, h.2⟩
    | some m =>
      by_cases hsc : m.score < c.score
      · have hspec := heapMin_spec hm
        have hattempt : pathOf m ∈ s.ckptPaths := h.2 m hspec.1
        have hstep1 : (save_top10_step b s c).1.top10 = c :: s.top10.erase m := by
          simp [save_top10_step, hlt, hm, hsc]
        have hstep2 : (save_top10_step b s c).1.ckptPaths =
            (s.ckptPaths.filter (fun p => p ≠ pathOf m)).insert (pathOf c) := by
          simp [save_top10_step, hlt, hm, hsc, hattempt]
        constructor
        · rw [hstep1]
          rw [← Multiset.cons_coe c (s.top10.erase m), ← hconsle]
          refine Multiset.cons_le_cons c ?_
          rw [← Multiset.coe_erase s.top10 m]
          exact le_trans (Multiset.erase_le m ↑s.top10) h.1
        · intro e he
          rw [hstep1] at he
          rw [hstep2]
          rcases List.mem_cons.mp he with he | he
          · rw [he]; exact List.mem_insert_self _ _
          · obtain ⟨hne, hetop⟩ := htopNodup.mem_erase_iff.mp he
            refine List.mem_insert_iff.mpr (Or.inr ?_)
            refine List.mem_filter.mpr ⟨h.2 e hetop, ?_⟩
            have hpne : pathOf e ≠ pathOf m := by
              refine pathOf_ne_of_epoch_ne ?_
              intro heq
              exact hne (hinj e hetop m hspec.1 heq)
            simpa using hpne
      · have hstep : (save_top10_step b s c).1 = s := by
          simp [save_top10_step, hlt, hm, hsc]
        rw [hstep]
        exact ⟨le_trans h.1 hple, h.2⟩

theorem RetInv_run : ∀ (cs : List Ckpt) (d : Nat → Bool) (processed : List Ckpt) (s : RState),
    RetInv processed s → ((processed ++ cs).map Ckpt.epoch).Nodup →
    RetInv (processed ++ cs) (save_top10_run d s cs) := by
  intro cs
  induction cs with
  | nil =>
    intro d processed s h _
    simpa using h
  | cons c rest ih =>
    intro d processed s h hnd
    have hnd1 : ((processed ++ [c]).map Ckpt.epoch).Nodup := by
      have hsub : List.Sublist (processed ++ [c]) (processed ++ c :: rest) :=
        List.Sublist.append_left ((List.nil_sublist rest).cons₂ c) processed
      exact hnd.sublist (hsub.map Ckpt.epoch)
    have h1 := RetInv_step (d 0) processed s c h hnd1
    have h2 := ih (fun n => d (n + 1)) (processed ++ [c]) (save_top10_step (d 0) s c).1 h1
      (by simpa [List.append_assoc] using hnd)
    simpa [save_top10_run, List.append_assoc] using h2

/-- C6: in any reachable state of a training run (epochs of the
candidates are pairwise distinct, as `trainer.epoch` increases), an
eviction attempts to delete exactly the artifact of the popped minimum
— a checkpoint that is no longer in the retention set — and never the
artifact of a member that remains; the artifacts of all members kept
across the step are untouched on disk. -/
theorem eviction_frame (d : Nat → Bool) (b : Bool) (pre : List Ckpt) (c : Ckpt)
    (hnd : ((pre ++ [c]).map Ckpt.epoch).Nodup) :
    (∀ p, (save_top10_step b (save_top10_run d initRState pre) c).2.deleted = some p →
        ∃ m, heapMin (save_top10_run d initRState pre).top10 = some m ∧ p = pathOf m
          ∧ m ∉ (save_top10_step b (save_top10_run d initRState pre) c).1.top10
          ∧ ∀ e ∈ (save_top10_step b (save_top10_run d initRState pre) c).1.top10,
              pathOf e ≠ p)
    ∧ (∀ m, ¬ (save_top10_run d initRState pre).top10.length < 10 →
        heapMin (save_top10_run d initRState pre).top10 = some m → m.score < c.score →
        (save_top10_step b (save_top10_run d initRState pre) c).2.deleted = some (pathOf m))
    ∧ (∀ e ∈ (save_top10_run d initRState pre).top10,
        e ∈ (save_top10_step b (save_top10_run d initRState pre) c).1.top10 →
        (pathOf e ∈ (save_top10_step b (save_top10_run d initRState pre) c).1.disk
          ↔ pathOf e ∈ (save_top10_run d initRState pre).disk)) := by
  set s := save_top10_run d initRState pre with hsdef
  have hndp : (pre.map Ckpt.epoch).Nodup := by
    rw [List.map_append] at hnd
    exact (List.nodup_append.mp hnd).1
  have hfresh : ∀ e ∈ pre, e.epoch ≠ c.epoch := by
    rw [List.map_append] at hnd
    have hdisj := (List.nodup_append.mp hnd).2.2
    intro e he heq
    exact hdisj (List.mem_map_of_mem Ckpt.epoch he) (by simp [heq])
  have hinv : RetInv pre s := by
    have h0 : RetInv [] initRState := by
      constructor
      · simp [initRState]
      · intro e he; simp [initRState] at he
    have h1 := RetInv_run pre d [] initRState h0 (by simpa using hndp)
    simpa [hsdef] using h1
  obtain ⟨hmem, htopNodup, hinj⟩ := retinv_facts hinv hndp
  by_cases hlt : s.top10.length < 10
  · have hev : (save_top10_step b s c).2 =
        { deleted := none, saved := some (pathOf c) } := by
      simp [save_top10_step, hlt]
    have hstd : (save_top10_step b s c).1.disk = s.disk.insert (pathOf c) := by
      simp [save_top10_step, hlt]
    refine ⟨?_, ?_, ?_⟩
    · intro p hp
      rw [hev] at hp
      simp at hp
    · intro m h10 _ _
      exact absurd hlt h10
    · intro e he _
      rw [hstd]
      have hne : pathOf e ≠ pathOf c :=
        pathOf_ne_of_epoch_ne (hfresh e (hmem e he))
      simp [List.mem_insert_iff, hne]
  · cases hm : heapMin s.top10 with
    | none =>
      have hstep : save_top10_step b s c = (s, { deleted := none, saved := none }) := by
        simp [save_top10_step, hlt, hm]
      refine ⟨?_, ?_, ?_⟩
      · intro p hp
        rw [hstep] at hp
        simp at hp
      · intro m _ hm1 _
        simp at hm1
      · intro e _ _
        rw [hstep]
    | some m0 =>
      have hspec := heapMin_spec hm
      have hm0pre : m0 ∈ pre := hmem m0 hspec.1
      by_cases hsc : m0.score < c.score
      · have hattempt : pathOf m0 ∈ s.ckptPaths := hinv.2 m0 hspec.1
        have hev : (save_top10_step b s c).2 =
            { deleted := some (pathOf m0), saved := some (pathOf c) } := by
          simp [save_top10_step, hlt, hm, hsc, hattempt]
        have hst1 : (save_top10_step b s c).1.top10 = c :: s.top10.erase m0 := by
          simp [save_top10_step, hlt, hm, hsc]
        have hdisk_mem : ∀ q : Nat × Int, q ≠ pathOf c → q ≠ pathOf m0 →
            (q ∈ (save_top10_step b s c).1.disk ↔ q ∈ s.disk) := by
          intro q h1 h2
          cases b
          · have hb : (save_top10_step false s c).1.disk = s.disk.insert (pathOf c) := by
              simp [save_top10_step, hlt, hm, hsc]
            rw [hb]
            simp [List.mem_insert_iff, h1]
          · have hb : (save_top10_step true s c).1.disk
                = (s.disk.filter (fun p => p ≠ pathOf m0)).insert (pathOf c) := by
              simp [save_top10_step, hlt, hm, hsc, hattempt]
            rw [hb]
            simp [List.mem_insert_iff, List.mem_filter, h1, h2]
        refine ⟨?_, ?_, ?_⟩
        · intro p hp
          rw [hev] at hp
          have hpm : p = pathOf m0 := by
            have := congrArg RetEvent.deleted hev
            simp at hp
            exact hp.symm
          refine ⟨m0, rfl, hpm, ?_, ?_⟩
          · rw [hst1]
            intro hmem0
            rcases List.mem_cons.mp hmem0 with h1 | h1
            · exact hfresh m0 hm0pre (congrArg Ckpt.epoch h1)
            · exact (htopNodup.mem_erase_iff.mp h1).1 rfl
          · intro e he2
            rw [hst1] at he2
            rw [hpm]
            rcases List.mem_cons.mp he2 with h1 | h1
            · rw [h1]
              exact pathOf_ne_of_epoch_ne (Ne.symm (hfresh m0 hm0pre))
            · obtain ⟨hne, hetop⟩ := htopNodup.mem_erase_iff.mp h1
              refine pathOf_ne_of_epoch_ne ?_
              intro heq
              exact hne (hinj e hetop m0 hspec.1 heq)
        · intro m1 _ hm1 _
          have hm10 : m1 = m0 := (Option.some.inj hm1).symm
          rw [hm10, hev]
        · intro e he hr
          have hec : pathOf e ≠ pathOf c :=
            pathOf_ne_of_epoch_ne (hfresh e (hmem e he))
          have hem : pathOf e ≠ pathOf m0 := by
            rw [hst1] at hr
            rcases List.mem_cons.mp hr with h1 | h1
            · exact absurd (congrArg Ckpt.epoch h1) (hfresh e (hmem e he))
            · obtain ⟨hne, hetop⟩ := htopNodup.mem_erase_iff.mp h1
              refine pathOf_ne_of_epoch_ne ?_
              intro heq
              exact hne (hinj e hetop m0 hspec.1 heq)
          exact hdisk_mem (pathOf e) hec hem
      · have hstep : save_top10_step b s c = (s, { deleted := none, saved := none }) := by
          simp [save_top10_step, hlt, hm, hsc]
        refine ⟨?_, ?_, ?_⟩
        · intro p hp
          rw [hstep] at hp
          simp at hp
        · intro m1 _ hm1 hsc1
          have hm10 : m1 = m0 := (Option.some.inj hm1).symm
          rw [hm10] at hsc1
          exact absurd hsc1 hsc
        · intro e _ _
          rw [hstep]

/-- Witness for C6: after the ten `pre10` candidates, the candidate of
score 35 at epoch 10 evicts the minimum; the frame properties hold at
this concrete step. -/
theorem eviction_frame_witness :
    (∀ p, (save_top10_step true (save_top10_run (fun _ => true) initRState pre10)
          ⟨35, 10⟩).2.deleted = some p →
        ∃ m, heapMin (save_top10_run (fun _ => true) initRState pre10).top10 = some m
          ∧ p = pathOf m
          ∧ m ∉ (save_top10_step true (save_top10_run (fun _ => true) initRState pre10)
              ⟨35, 10⟩).1.top10
          ∧ ∀ e ∈ (save_top10_step true (save_top10_run (fun _ => true) initRState pre10)
              ⟨35, 10⟩).1.top10, pathOf e ≠ p)
    ∧ (∀ m, ¬ (save_top10_run (fun _ => true) initRState pre10).top10.length < 10 →
        heapMin (save_top10_run (fun _ => true) initRState pre10).top10 = some m →
        m.score < (⟨35, 10⟩ : Ckpt).score →
        (save_top10_step true (save_top10_run (fun _ => true) initRState pre10)
          ⟨35, 10⟩).2.deleted = some (pathOf m))
    ∧ (∀ e ∈ (save_top10_run (fun _ => true) initRState pre10).top10,
        e ∈ (save_top10_step true (save_top10_run (fun _ => true) initRState pre10)
          ⟨35, 10⟩).1.top10 →
        (pathOf e ∈ (save_top10_step true (save_top10_run (fun _ => true) initRState pre10)
          ⟨35, 10⟩).1.disk
          ↔ pathOf e ∈ (save_top10_run (fun _ => true) initRState pre10).disk)) :=
  eviction_frame (fun _ => true) true pre10 ⟨35, 10⟩ (by decide)

/-- Witness for C5 amended: at the concrete full state `rstateTen`, a
failed delete produces no log record and the bookkeeping coincides with
the successful case; the new candidate is inserted and persisted. -/
theorem delete_failure_swallowed_silently_witness :
    save_top10_step_logs false rstateTen ⟨3, 30⟩ = []
    ∧ (save_top10_step false rstateTen ⟨3, 30⟩).1.top10
      = (save_top10_step true rstateTen ⟨3, 30⟩).1.top10
    ∧ (save_top10_step false rstateTen ⟨3, 30⟩).1.ckptPaths
      = (save_top10_step true rstateTen ⟨3, 30⟩).1.ckptPaths
    ∧ (save_top10_step false rstateTen ⟨3, 30⟩).1.top10
      = ⟨3, 30⟩ :: rstateTen.top10.erase ⟨1, 1⟩
    ∧ (⟨3, 30⟩ : Ckpt) ∈ (save_top10_step false rstateTen ⟨3, 30⟩).1.top10
    ∧ (save_top10_step false rstateTen ⟨3, 30⟩).2.saved = some (pathOf ⟨3, 30⟩)
    ∧ pathOf ⟨3, 30⟩ ∈ (save_top10_step false rstateTen ⟨3, 30⟩).1.disk :=
  delete_failure_swallowed_silently rstateTen ⟨3, 30⟩ ⟨1, 1⟩ (by decide) (by decide) (by decide)
